import Mathlib

/-!
Verification of the easydist pipeline-parallel runtime
(`easydist/torch/experimental/pp/runtime.py` and
`easydist/torch/experimental/pp/utils.py`).

The development shallowly embeds the data model and operations of the
runtime:

* Python `dict`s become insertion-ordered association lists (`PyDict`)
  whose update operation (`dictSet`) replaces an existing key in place
  and appends a fresh key at the end, exactly as CPython dictionaries
  behave;
* tensors become their (exactly represented) scalar values, `Int`,
  since the claims under study concern orchestration, accumulation
  structure and aliasing rather than numerics;
* fallible Python code (`KeyError`, `IndexError`, `assert`,
  `raise RuntimeError`) becomes `Except String`-valued code;
* the opaque compiled callables (`compiled_stage.forward`,
  `compiled_stage.backward`) are parameters of the model: functions
  from the chunk index to the entries they write into the per-chunk
  stores.
-/

/-! ### Python dictionaries as insertion-ordered association lists -/

/-- Key lookup in a Python dict: the value stored at `k`, if any.
Keys are unique in every dictionary built by `dictSet`. -/
def lookupD {β : Type} : List (String × β) → String → Option β
  | [], _ => none
  | (k', v) :: rest, k => if k' = k then some v else lookupD rest k

/-- `d[k] = v` on a Python dict: replace in place if `k` is present
(keeping its position), otherwise append `(k, v)` at the end. -/
def dictSet {β : Type} : List (String × β) → String → β → List (String × β)
  | [], k, v => [(k, v)]
  | (k', v') :: rest, k, v =>
      if k' = k then (k, v) :: rest else (k', v') :: dictSet rest k v

/-- `k in d` on a Python dict. -/
def containsKey {β : Type} (d : List (String × β)) (k : String) : Bool :=
  (lookupD d k).isSome

/-- `d.update(new)` effect of a callable writing entries into a store
it was handed: each produced entry is stored with `d[k] = v`. -/
def updateDict {β : Type} (old new : List (String × β)) : List (String × β) :=
  new.foldl (fun d kv => dictSet d kv.1 kv.2) old

theorem lookupD_dictSet {β : Type} (d : List (String × β)) (k k' : String) (v : β) :
    lookupD (dictSet d k v) k' = if k = k' then some v else lookupD d k' := by
  induction d with
  | nil => by_cases h : k = k' <;> simp [dictSet, lookupD, h]
  | cons hd tl ih =>
      obtain ⟨k₀, v₀⟩ := hd
      by_cases h₀ : k₀ = k
      · subst h₀
        by_cases h : k₀ = k' <;> simp [dictSet, lookupD, h]
      · by_cases h : k₀ = k'
        · subst h
          have hk : k ≠ k₀ := fun h => h₀ h.symm
          simp [dictSet, h₀, lookupD, hk]
        · simp [dictSet, h₀, lookupD, h, ih]

/-! ### `OneToOneMap` (utils.py)

The map holds a pair of Python dicts `_map : key → value` and
`_inv : value → key`. -/

structure OneToOneMap where
  map : List (String × String)
  inv : List (String × String)
deriving DecidableEq, Repr

namespace OneToOneMap

/-- `OneToOneMap()`. -/
def empty : OneToOneMap := ⟨[], []⟩

/-- `get(key)`: `self._map[key]`, `KeyError` if absent. -/
def get (m : OneToOneMap) (k : String) : Except String String :=
  match lookupD m.map k with
  | some v => .ok v
  | none => .error "KeyError"

/-- `inv_get(key)`: `self._inv[key]`, `KeyError` if absent. -/
def invGet (m : OneToOneMap) (k : String) : Except String String :=
  match lookupD m.inv k with
  | some v => .ok v
  | none => .error "KeyError"

/-- `add(key, value)` exactly as written in utils.py: the guard is
`if key in self._map or value in self._map`, i.e. the second membership
test is run against `self._map` (the forward dict) rather than
`self._inv`, although the error message it formats prints
`value in self._inv`. -/
def add (m : OneToOneMap) (k v : String) : Except String OneToOneMap :=
  if containsKey m.map k || containsKey m.map v then
    .error "RuntimeError: not one to one mapping"
  else
    .ok { map := dictSet m.map k v, inv := dictSet m.inv v k }

/-- The check the spec describes (`value` tested against the inverse
dict), stated for comparison with `add`. -/
def addSpec (m : OneToOneMap) (k v : String) : Except String OneToOneMap :=
  if containsKey m.map k || containsKey m.inv v then
    .error "RuntimeError: not one to one mapping"
  else
    .ok { map := dictSet m.map k v, inv := dictSet m.inv v k }

end OneToOneMap

/-! ### Schedule traces

Each `Schedule.__call__` body performs a data-independent sequence of
primitive invocations on its `PipelineStage`; the sequence is a pure
function of `num_stages`, `stage_idx`, `num_chunks` and of which of
`bw_node` / `step_node` are present.  `PPEvent` records one primitive
invocation. -/

inductive PPEvent where
  /-- `forward_recv_one_chunk(wait=...)` -/
  | fwRecv (wait : Bool)
  /-- the `req.wait()` loop over handles of a deferred forward receive -/
  | fwWait
  /-- `forward_compute_one_chunk()` -/
  | fwCompute
  /-- `forward_send_one_chunk()` -/
  | fwSend
  /-- `backward_recv_one_chunk(wait=...)` -/
  | bwRecv (wait : Bool)
  /-- `backward_compute_one_chunk()` -/
  | bwCompute
  /-- `backward_send_one_chunk()` -/
  | bwSend
  /-- the `work.wait()` loop over `all_send_reqs` -/
  | waitAllSends
  /-- `merge_and_assign_chunked_grads()` -/
  | mergeGrads
  /-- `step()` -/
  | stepCall
deriving DecidableEq, Repr

/-- `n` iterations of a loop whose body performs the fixed sequence
`block` of primitive invocations (`for _ in range(n): block`). -/
def repeatTrace (block : List PPEvent) : Nat → List PPEvent
  | 0 => []
  | n + 1 => block ++ repeatTrace block n

/-- `ScheduleDAPPLE.__init__`: `num_warmup = min(num_stages - stage_idx, num_chunks)`. -/
def numWarmup (numStages stageIdx numChunks : Nat) : Nat :=
  min (numStages - stageIdx) numChunks

/-- Warm-up phase of `ScheduleDAPPLE.__call__`:
`for chunk in range(num_warmup)`, each iteration doing forward
recv (blocking), compute, send. -/
def dappleWarmupTrace (w : Nat) : List PPEvent :=
  repeatTrace [.fwRecv true, .fwCompute, .fwSend] w

/-- 1F1B steady-state phase of `ScheduleDAPPLE.__call__`:
`for fwd_chunk in range(num_warmup, num_chunks)` — `num_chunks -
num_warmup` iterations — each doing blocking backward recv,
non-blocking forward recv, backward compute, backward send, wait on
the deferred forward recv, forward compute, forward send. -/
def dappleSteadyTrace (w c : Nat) : List PPEvent :=
  repeatTrace [.bwRecv true, .fwRecv false, .bwCompute, .bwSend, .fwWait, .fwCompute, .fwSend]
    (c - w)

/-- Cool-down phase of `ScheduleDAPPLE.__call__`:
`for bwd_chunk in range(num_chunks - num_warmup, num_chunks)` —
`num_chunks - (num_chunks - num_warmup)` iterations, written here
literally — each doing blocking backward recv, compute, send. -/
def dappleCooldownTrace (w c : Nat) : List PPEvent :=
  repeatTrace [.bwRecv true, .bwCompute, .bwSend] (c - (c - w))

/-- The full sequence of primitive invocations of
`ScheduleDAPPLE.__call__`. -/
def scheduleDAPPLETrace (numStages stageIdx numChunks : Nat) (hasStep : Bool) : List PPEvent :=
  let w := numWarmup numStages stageIdx numChunks
  dappleWarmupTrace w ++ dappleSteadyTrace w numChunks ++ dappleCooldownTrace w numChunks
    ++ [.waitAllSends, .mergeGrads] ++ (if hasStep then [.stepCall] else [])

/-- The full sequence of primitive invocations of
`ScheduleGPipe.__call__`: all forward chunks, then (if a backward node
exists) all backward chunks, then the wait on all deferred sends, the
gradient merge, and (if a step node exists) the step. -/
def scheduleGPipeTrace (numChunks : Nat) (hasBw hasStep : Bool) : List PPEvent :=
  repeatTrace [.fwRecv true, .fwCompute, .fwSend] numChunks
    ++ (if hasBw then repeatTrace [.bwRecv true, .bwCompute, .bwSend] numChunks else [])
    ++ [.waitAllSends, .mergeGrads] ++ (if hasStep then [.stepCall] else [])

theorem length_repeatTrace (block : List PPEvent) (n : Nat) :
    (repeatTrace block n).length = n * block.length := by
  induction n with
  | zero => simp [repeatTrace]
  | succ k ih => rw [repeatTrace, List.length_append, ih, Nat.succ_mul, Nat.add_comm]

theorem count_repeatTrace (block : List PPEvent) (n : Nat) (e : PPEvent) :
    (repeatTrace block n).count e = n * block.count e := by
  induction n with
  | zero => simp [repeatTrace]
  | succ k ih => rw [repeatTrace, List.count_append, ih, Nat.succ_mul, Nat.add_comm]

theorem mem_repeatTrace {block : List PPEvent} {n : Nat} {e : PPEvent}
    (h : e ∈ repeatTrace block n) : e ∈ block := by
  induction n with
  | zero => cases h
  | succ k ih =>
      rw [repeatTrace, List.mem_append] at h
      exact h.elim id ih

/-- Inside `i`-th iteration of a repeated block (followed by anything),
the events at offset `block.length * i` are exactly the block. -/
theorem repeatTrace_block_at (block rest : List PPEvent) :
    ∀ (i n : Nat), i < n →
      ((repeatTrace block n ++ rest).drop (block.length * i)).take block.length = block := by
  intro i
  induction i with
  | zero =>
      intro n hn
      match n, hn with
      | m + 1, _ =>
          rw [Nat.mul_zero, List.drop_zero, repeatTrace, List.append_assoc,
            List.take_left]
  | succ j ih =>
      intro n hn
      match n, hn with
      | m + 1, hn =>
          rw [repeatTrace, List.append_assoc, Nat.mul_succ, Nat.add_comm,
            List.drop_append]
          exact ih m (Nat.lt_of_succ_lt_succ hn)

/-! ### Gradient reduction (runtime.py)

`GradDict` models one per-chunk gradient dictionary
(`saved_grads_step_chunks[i]` / `output_grads_chunks[i]`) or a reduced
accumulator (`step_grads_reduced` / `output_grads_reduced`). -/

abbrev GradDict := List (String × Int)

/-- One combining step of the end-of-step tree reduction in
`merge_and_assign_chunked_grads`:
`lambda a, b: {k: torch.add(a[k], b[k]) for k in a}`.
The comprehension ranges over the keys of `a` in order and indexes
`b[k]`, raising `KeyError` when `b` lacks a key of `a`; keys of `b`
outside `a` are dropped silently. -/
def gradCombine : GradDict → GradDict → Except String GradDict
  | [], _ => .ok []
  | kv :: rest, b =>
      match lookupD b kv.1 with
      | some bv => (gradCombine rest b).map (fun r => (kv.1, kv.2 + bv) :: r)
      | none => .error "KeyError"

/-- `functools.reduce(lambda a, b: ..., chunks)` over the per-chunk
gradient dicts (`TypeError` on an empty sequence, as in Python). -/
def treeReduceGrads : List GradDict → Except String GradDict
  | [] => .error "TypeError: reduce of empty sequence"
  | c :: cs => cs.foldlM gradCombine c

/-- The in-place accumulation loop of `backward_compute_one_chunk`:
`for grad_node, grad in chunk.items():`
`  if grad_node in reduced: reduced[grad_node].add_(grad)`
`  else: reduced[grad_node] = grad`. -/
def accumInto (reduced chunk : GradDict) : GradDict :=
  chunk.foldl
    (fun acc kv =>
      match lookupD acc kv.1 with
      | some s => dictSet acc kv.1 (s + kv.2)
      | none => dictSet acc kv.1 kv.2)
    reduced

/-- Reduction of a chunk sequence via the in-place path: the reduced
accumulator starts empty at the beginning of a step and each
`backward_compute_one_chunk` folds its chunk in with `accumInto`. -/
def inplaceReduceGrads (chunks : List GradDict) : GradDict :=
  chunks.foldl accumInto []

theorem lookupD_eq_none_iff {β : Type} (d : List (String × β)) (k : String) :
    lookupD d k = none ↔ k ∉ d.map Prod.fst := by
  induction d with
  | nil => simp [lookupD]
  | cons hd tl ih =>
      obtain ⟨k₀, v₀⟩ := hd
      by_cases h : k₀ = k
      · subst h; simp [lookupD]
      · rw [List.map_cons, List.mem_cons]
        simp only [lookupD, if_neg h, ih]
        constructor
        · rintro hn (he | hm)
          · exact h he.symm
          · exact hn hm
        · exact fun hn hm => hn (Or.inr hm)

theorem containsKey_of_mem_keys {β : Type} (d : List (String × β)) (k : String)
    (h : k ∈ d.map Prod.fst) : containsKey d k = true := by
  rw [containsKey, Option.isSome_iff_exists]
  cases hl : lookupD d k with
  | none => exact absurd ((lookupD_eq_none_iff d k).mp hl) (by simpa using h)
  | some v => exact ⟨v, rfl⟩

theorem lookupD_accumInto (chunk : GradDict) (hnd : (chunk.map Prod.fst).Nodup) :
    ∀ (reduced : GradDict) (k : String),
      lookupD (accumInto reduced chunk) k =
        match lookupD chunk k, lookupD reduced k with
        | none, o => o
        | some g, none => some g
        | some g, some s => some (s + g) := by
  induction chunk with
  | nil =>
      intro reduced k
      show lookupD reduced k = _
      cases lookupD reduced k <;> rfl
  | cons hd rest ih =>
      obtain ⟨k₀, g₀⟩ := hd
      simp only [List.map_cons, List.nodup_cons] at hnd
      intro reduced k
      have hstep : accumInto reduced ((k₀, g₀) :: rest) =
          accumInto (match lookupD reduced k₀ with
                     | some s => dictSet reduced k₀ (s + g₀)
                     | none => dictSet reduced k₀ g₀) rest := rfl
      rw [hstep, ih hnd.2]
      by_cases hk : k₀ = k
      · subst hk
        have hrest : lookupD rest k₀ = none := (lookupD_eq_none_iff rest k₀).mpr hnd.1
        rw [hrest]
        cases h₀ : lookupD reduced k₀ <;>
          simp [lookupD, lookupD_dictSet, h₀]
      · have hchunk : lookupD ((k₀, g₀) :: rest) k = lookupD rest k := by
          simp [lookupD, hk]
        rw [hchunk]
        have hred : ∀ v' : Int,
            lookupD (dictSet reduced k₀ v') k = lookupD reduced k := by
          intro v'; rw [lookupD_dictSet]; simp [hk]
        cases h₀ : lookupD reduced k₀ <;> simp only [hred]

theorem gradCombine_ok (a b : GradDict) (h : ∀ kv ∈ a, containsKey b kv.1 = true) :
    ∃ r, gradCombine a b = .ok r ∧ r.map Prod.fst = a.map Prod.fst ∧
      ∀ k, lookupD r k =
        match lookupD a k with
        | none => none
        | some av => (lookupD b k).map (fun bv => av + bv) := by
  induction a with
  | nil => exact ⟨[], rfl, rfl, fun k => by simp [lookupD]⟩
  | cons kv rest ih =>
      obtain ⟨r', hr', hkeys', hlook'⟩ := ih (fun kv hm => h kv (List.mem_cons_of_mem _ hm))
      have hb : containsKey b kv.1 = true := h kv (List.mem_cons_self _ _)
      rw [containsKey, Option.isSome_iff_exists] at hb
      obtain ⟨bv, hbv⟩ := hb
      refine ⟨(kv.1, kv.2 + bv) :: r', ?_, by simp [hkeys'], ?_⟩
      · simp [gradCombine, hbv, hr', Except.map]
      · intro k
        by_cases hk : kv.1 = k
        · subst hk; simp [lookupD, hbv]
        · simp [lookupD, hk, hlook']

theorem tree_inplace_aux (K : List String) (hnd : K.Nodup) :
    ∀ (cs : List GradDict), (∀ c ∈ cs, c.map Prod.fst = K) →
    ∀ (t p : GradDict), t.map Prod.fst = K → (∀ k, lookupD t k = lookupD p k) →
    ∃ d, cs.foldlM gradCombine t = .ok d ∧
      ∀ k, lookupD d k = lookupD (cs.foldl accumInto p) k := by
  intro cs
  induction cs with
  | nil => intro _ t p _ hpt; exact ⟨t, rfl, by simpa using hpt⟩
  | cons c rest ih =>
      intro hK t p htK hpt
      have hcK : c.map Prod.fst = K := hK c (List.mem_cons_self _ _)
      have hcnd : (c.map Prod.fst).Nodup := hcK ▸ hnd
      have hcov : ∀ kv ∈ t, containsKey c kv.1 = true := by
        intro kv hm
        refine containsKey_of_mem_keys c kv.1 ?_
        rw [hcK, ← htK]
        exact List.mem_map_of_mem _ hm
      obtain ⟨r, hr, hrkeys, hrlook⟩ := gradCombine_ok t c hcov
      have hnext : ∀ k, lookupD r k = lookupD (accumInto p c) k := by
        intro k
        rw [hrlook k, lookupD_accumInto c hcnd p k, ← hpt k]
        cases hck : lookupD c k with
        | none =>
            have hkc : k ∉ c.map Prod.fst := (lookupD_eq_none_iff c k).mp hck
            have htk : lookupD t k = none := by
              rw [lookupD_eq_none_iff, htK, ← hcK]; exact hkc
            rw [htk]
        | some g =>
            cases htk : lookupD t k with
            | none =>
                have : k ∉ c.map Prod.fst := by
                  rw [hcK, ← htK]
                  exact (lookupD_eq_none_iff t k).mp htk
                rw [(lookupD_eq_none_iff c k).mpr this] at hck
                exact absurd hck (by simp)
            | some s => simp
      obtain ⟨d, hd, hdl⟩ :=
        ih (fun c' hm => hK c' (List.mem_cons_of_mem _ hm)) r (accumInto p c)
          (hrkeys.trans htK) hnext
      refine ⟨d, ?_, hdl⟩
      rw [List.foldlM_cons, hr]
      exact hd

/-! ### Return-value reassembly (`merge_chunked_returns`) -/

/-- The inner loop over one stage's partial result:
`for k, v in returns.items(): if v is not None: returns_dict[k] = v`. -/
def assembleStage (acc : List (String × Int)) (stageReturns : List (String × Option Int)) :
    List (String × Int) :=
  stageReturns.foldl
    (fun d kv => match kv.2 with
      | some v => dictSet d kv.1 v
      | none => d)
    acc

/-- `returns_dict` as built by `merge_chunked_returns` from
`returns_all_gather`, the per-stage partial results in stage order. -/
def assembleReturns (gathered : List (List (String × Option Int))) : List (String × Int) :=
  gathered.foldl assembleStage []

/-- `return_tensors = [returns_dict[node_name] for node_name in ...]`:
`KeyError` when a declared name received no contribution at all. -/
def returnTensors (gathered : List (List (String × Option Int))) (names : List String) :
    Except String (List Int) :=
  names.mapM (fun n =>
    match lookupD (assembleReturns gathered) n with
    | some v => .ok v
    | none => .error "KeyError")

/-- Specification-side description of the amended reassembly policy:
the LAST non-absent contribution for `k`, scanning the gathered
per-stage results (and each stage's entries) in order. -/
def lastNonAbsent (gathered : List (List (String × Option Int))) (k : String) : Option Int :=
  (((gathered.flatMap id).filter (fun kv => kv.1 = k)).reverse).findSome? Prod.snd

theorem lookupD_assembleStage (l : List (String × Option Int)) :
    ∀ (acc : List (String × Int)) (k : String),
      lookupD (assembleStage acc l) k =
        (l.filter (fun kv => kv.1 == k)).foldl
          (fun a kv => match kv.2 with | some v => some v | none => a)
          (lookupD acc k) := by
  induction l with
  | nil => intro acc k; rfl
  | cons kv rest ih =>
      intro acc k
      have hstep : assembleStage acc (kv :: rest) =
          assembleStage (match kv.2 with
                         | some v => dictSet acc kv.1 v
                         | none => acc) rest := rfl
      rw [hstep, ih]
      by_cases hk : kv.1 = k
      · subst hk
        rw [List.filter_cons_of_pos (by simp), List.foldl_cons]
        cases hv : kv.2 with
        | some v => rw [lookupD_dictSet]; simp [hv]
        | none => simp [hv]
      · rw [List.filter_cons_of_neg (by simp [hk])]
        cases hv : kv.2 with
        | some v => rw [lookupD_dictSet]; simp [hk]
        | none => rfl

theorem lookupD_assembleReturns_aux (gathered : List (List (String × Option Int))) :
    ∀ (acc : List (String × Int)) (k : String),
      lookupD (gathered.foldl assembleStage acc) k =
        ((gathered.flatMap id).filter (fun kv => kv.1 == k)).foldl
          (fun a kv => match kv.2 with | some v => some v | none => a)
          (lookupD acc k) := by
  induction gathered with
  | nil => intro acc k; rfl
  | cons s rest ih =>
      intro acc k
      rw [List.foldl_cons, ih, lookupD_assembleStage]
      rw [List.flatMap_cons, id, List.filter_append, List.foldl_append]

theorem foldl_lastSome_eq (l : List (String × Option Int)) :
    ∀ (a : Option Int),
      l.foldl (fun a kv => match kv.2 with | some v => some v | none => a) a =
        match l.reverse.findSome? Prod.snd with
        | some v => some v
        | none => a := by
  induction l with
  | nil => intro a; rfl
  | cons kv rest ih =>
      intro a
      rw [List.foldl_cons, ih, List.reverse_cons, List.findSome?_append]
      cases hr : rest.reverse.findSome? Prod.snd <;>
        cases hv : kv.2 <;> simp [List.findSome?, hv, Option.or]

/-- The `returns_dict` built by `merge_chunked_returns` holds, for each
name, the last non-absent contribution in stage order. -/
theorem lookupD_assembleReturns (gathered : List (List (String × Option Int))) (k : String) :
    lookupD (assembleReturns gathered) k = lastNonAbsent gathered k := by
  rw [assembleReturns, lookupD_assembleReturns_aux, foldl_lastSome_eq, lastNonAbsent]
  cases ((gathered.flatMap id).filter (fun kv => kv.1 == k)).reverse.findSome? Prod.snd <;> rfl

/-! ### `PipelineStage` runtime state

Mirrors `_init_runtime_states` / `reset_and_check_runtime_states` and
the per-chunk primitives.  The opaque compiled callables are
parameters (`StageProgram`), giving per chunk the entries they write
into the stores they are handed. -/

structure StageConfig where
  numChunks : Nat
  hasBwNode : Bool
  hasStepNode : Bool
  accumulateGradsInplace : Bool
  /-- `compiled_meta.output_grads_map.inv_get`, as a partial lookup -/
  outputGradsMapInv : String → Option String
  /-- `compiled_meta.input_params_map.get`, as a partial lookup -/
  inputParamsMap : String → Option String

structure RuntimeStates where
  curFwSendChunk : Option GradDict
  curBwSendChunk : Option GradDict
  curFwChunkId : Nat
  curBwChunkId : Nat
  kwargsChunks : List GradDict
  savedTensorsBwChunks : List GradDict
  savedParamsStep : GradDict
  savedGradsStepChunks : List GradDict
  outputGradsChunks : List GradDict
  returnsChunks : List GradDict
  /-- exists from construction only when `accumulate_grads_inplace`;
  modelled as always present, starting empty -/
  outputGradsReduced : GradDict
  stepGradsReduced : GradDict
  /-- the `.grad` slots of `fw_gm.node_states[StateType.PARAMS]` -/
  paramGrads : GradDict
deriving DecidableEq, Repr

/-- `_init_runtime_states`. -/
def initRuntimeStates (cfg : StageConfig) : RuntimeStates where
  curFwSendChunk := none
  curBwSendChunk := none
  curFwChunkId := 0
  curBwChunkId := 0
  kwargsChunks := List.replicate cfg.numChunks []
  savedTensorsBwChunks := List.replicate cfg.numChunks []
  savedParamsStep := []
  savedGradsStepChunks := List.replicate cfg.numChunks []
  outputGradsChunks := List.replicate cfg.numChunks []
  returnsChunks := List.replicate cfg.numChunks []
  outputGradsReduced := []
  stepGradsReduced := []
  paramGrads := []

/-- `check_single`: `for chunk in chunks_list: assert len(chunk) == 0`. -/
def checkSingle (chunksList : List GradDict) : Except String Unit :=
  if chunksList.all (fun c => c.isEmpty) then .ok ()
  else .error "AssertionError: len(chunk) == 0"

/-- `reset_and_check_runtime_states`: reset the send slots and both
chunk cursors, clear every kwargs chunk, then assert that the
returns / saved-tensor / step-grad / output-grad chunk buffers are all
empty, and (when `accumulate_grads_inplace`) that both reduced
accumulators are empty. -/
def resetAndCheckRuntimeStates (cfg : StageConfig) (s : RuntimeStates) :
    Except String RuntimeStates := do
  let s₁ : RuntimeStates :=
    { s with curFwSendChunk := none, curBwSendChunk := none,
             curFwChunkId := 0, curBwChunkId := 0,
             kwargsChunks := s.kwargsChunks.map (fun _ => ([] : GradDict)) }
  checkSingle s₁.returnsChunks
  checkSingle s₁.savedTensorsBwChunks
  checkSingle s₁.savedGradsStepChunks
  checkSingle s₁.outputGradsChunks
  if cfg.accumulateGradsInplace then
    if s₁.outputGradsReduced.isEmpty then pure ()
    else .error "AssertionError: len(output_grads_reduced) == 0"
    if s₁.stepGradsReduced.isEmpty then pure ()
    else .error "AssertionError: len(step_grads_reduced) == 0"
  .ok s₁

/-- `PipelineStage.__call__` up to and including the delegation to the
schedule: reset-and-check, overwrite the kwargs chunks with the new
step's split inputs (`split_input_kwargs` is the external microbatch
splitter, its output passed in as `splitChunks`), then run the
schedule.  The final `merge_chunked_returns` is modelled separately by
`assembleReturns`, and the optional tensor-parallel reshard of raw
inputs is an external collaborator operating before the split. -/
def pipelineStageCall (cfg : StageConfig) (splitChunks : List GradDict)
    (sched : RuntimeStates → Except String (RuntimeStates × List PPEvent))
    (s : RuntimeStates) : Except String (RuntimeStates × List PPEvent) := do
  let s₁ ← resetAndCheckRuntimeStates cfg s
  sched { s₁ with kwargsChunks := splitChunks }

/-- Per-chunk write of an opaque callable into `chunks[i]`: Python
indexes the list (raising on an out-of-range cursor) and the callable
stores entries into the dict it was handed. -/
def writeChunk (chunks : List GradDict) (i : Nat) (produced : GradDict) :
    Except String (List GradDict) :=
  match chunks.get? i with
  | some old => .ok (chunks.set i (updateDict old produced))
  | none => .error "IndexError"

/-- The opaque compiled callables of one stage, as the entries they
write per chunk into each store they are handed. -/
structure StageProgram where
  /-- `compiled_stage.forward` writes into `saved_tensors_bw_chunks[chunk]` -/
  fwSavedTensors : Nat → GradDict
  /-- `compiled_stage.forward` writes into `saved_params_step` -/
  fwSavedParams : Nat → GradDict
  /-- `compiled_stage.forward` writes into `returns_chunks[chunk]` -/
  fwReturns : Nat → GradDict
  /-- the return value of `compiled_stage.forward` (`cur_fw_send_chunk`) -/
  fwOut : Nat → GradDict
  /-- `compiled_stage.backward` writes into `saved_grads_step_chunks[chunk]` -/
  bwStepGrads : Nat → GradDict
  /-- `compiled_stage.backward` writes into `output_grads_chunks[chunk]` -/
  bwOutputGrads : Nat → GradDict
  /-- the return value of `compiled_stage.backward` (`cur_bw_send_chunk`) -/
  bwOut : Nat → GradDict

/-- `forward_compute_one_chunk`: run the opaque forward on the current
forward chunk's stores, record its output for the next send, advance
the forward cursor. -/
def forwardComputeOneChunk (prog : StageProgram) (s : RuntimeStates) :
    Except String RuntimeStates := do
  let i := s.curFwChunkId
  let st ← writeChunk s.savedTensorsBwChunks i (prog.fwSavedTensors i)
  let rc ← writeChunk s.returnsChunks i (prog.fwReturns i)
  .ok { s with savedTensorsBwChunks := st,
               savedParamsStep := updateDict s.savedParamsStep (prog.fwSavedParams i),
               returnsChunks := rc,
               curFwSendChunk := some (prog.fwOut i),
               curFwChunkId := i + 1 }

/-- `backward_compute_one_chunk`: run the opaque backward on the
current backward chunk's stores; when `accumulate_grads_inplace`, fold
the freshly produced per-chunk gradients into the reduced accumulators
with the `accumInto` loops and clear both per-chunk slots; advance the
backward cursor. -/
def backwardComputeOneChunk (cfg : StageConfig) (prog : StageProgram) (s : RuntimeStates) :
    Except String RuntimeStates := do
  let i := s.curBwChunkId
  let _ ← writeChunk s.savedTensorsBwChunks i []
  let sg ← writeChunk s.savedGradsStepChunks i (prog.bwStepGrads i)
  let og ← writeChunk s.outputGradsChunks i (prog.bwOutputGrads i)
  let s' := { s with savedGradsStepChunks := sg, outputGradsChunks := og,
                     curBwSendChunk := some (prog.bwOut i) }
  if cfg.accumulateGradsInplace then
    .ok { s' with
          stepGradsReduced :=
            accumInto s'.stepGradsReduced ((s'.savedGradsStepChunks.get? i).getD []),
          savedGradsStepChunks := s'.savedGradsStepChunks.set i [],
          outputGradsReduced :=
            accumInto s'.outputGradsReduced ((s'.outputGradsChunks.get? i).getD []),
          outputGradsChunks := s'.outputGradsChunks.set i [],
          curBwChunkId := i + 1 }
  else
    .ok { s' with curBwChunkId := i + 1 }

/-- `merge_and_assign_chunked_grads`: when not accumulating in place,
tree-reduce both families of per-chunk gradient buffers into the
reduced accumulators and clear the per-chunk buffers; when the stage
has no step node, translate each reduced output-grad name through
`output_grads_map.inv_get` then `input_params_map.get` and assign the
gradient onto the parameter's `.grad` slot; finally clear
`output_grads_reduced` (and only it). -/
def mergeAndAssignChunkedGrads (cfg : StageConfig) (s : RuntimeStates) :
    Except String RuntimeStates := do
  let s₁ ←
    if cfg.accumulateGradsInplace then .ok s
    else do
      let sg ← treeReduceGrads s.savedGradsStepChunks
      let og ← treeReduceGrads s.outputGradsChunks
      .ok { s with stepGradsReduced := sg,
                   savedGradsStepChunks := s.savedGradsStepChunks.map (fun _ => []),
                   outputGradsReduced := og,
                   outputGradsChunks := s.outputGradsChunks.map (fun _ => []) }
  let s₂ ←
    if cfg.hasStepNode then .ok s₁
    else do
      let pg ← s₁.outputGradsReduced.foldlM
        (fun (pg : GradDict) kv => do
          match cfg.outputGradsMapInv kv.1 with
          | none => Except.error "KeyError"
          | some paramTorchName =>
            match cfg.inputParamsMap paramTorchName with
            | none => Except.error "KeyError"
            | some paramNodeName => Except.ok (dictSet pg paramNodeName kv.2))
        s₁.paramGrads
      .ok { s₁ with paramGrads := pg }
  .ok { s₂ with outputGradsReduced := [] }

/-- Modelled from the spec: `CompiledStage.step` lives in
`easydist/torch/experimental/pp/compile_pipeline.py`, which is not
among the sources under study.  Per the interface contract it is the
opaque optimizer-step callable `(param_store, reduced_grads) -> None`,
i.e. numeric computation outside the orchestration core, so it is
modelled as an opaque update `stepFn` of the parameter store that does
not modify the runtime's buffers or accumulators. -/
def stepOp (stepFn : GradDict → GradDict → GradDict) (s : RuntimeStates) : RuntimeStates :=
  { s with savedParamsStep := stepFn s.savedParamsStep s.stepGradsReduced }

theorem exceptOkBind {ε α β : Type} (a : α) (f : α → Except ε β) :
    (Except.ok a >>= f) = f a := rfl

theorem exceptErrorBind {ε α β : Type} (e : ε) (f : α → Except ε β) :
    ((Except.error e : Except ε α) >>= f) = .error e := rfl

/-- The forward phase of `ScheduleGPipe.__call__`:
`for fw_chunk in range(n)` doing recv (blocking), compute, send and
collecting the send handles.  The receive and send operations act on
the placeholder buffers consumed and produced by the opaque callables,
which the model parametrizes directly, so here they contribute their
trace events. -/
def gpipeFwLoop (prog : StageProgram) : Nat → RuntimeStates →
    Except String (RuntimeStates × List PPEvent)
  | 0, s => .ok (s, [])
  | n + 1, s =>
      match forwardComputeOneChunk prog s with
      | .error e => .error e
      | .ok s₁ =>
          match gpipeFwLoop prog n s₁ with
          | .error e => .error e
          | .ok (s₂, evs) => .ok (s₂, [.fwRecv true, .fwCompute, .fwSend] ++ evs)

/-- The backward phase of `ScheduleGPipe.__call__` (entered only when
`bw_node` exists). -/
def gpipeBwLoop (cfg : StageConfig) (prog : StageProgram) : Nat → RuntimeStates →
    Except String (RuntimeStates × List PPEvent)
  | 0, s => .ok (s, [])
  | n + 1, s =>
      match backwardComputeOneChunk cfg prog s with
      | .error e => .error e
      | .ok s₁ =>
          match gpipeBwLoop cfg prog n s₁ with
          | .error e => .error e
          | .ok (s₂, evs) => .ok (s₂, [.bwRecv true, .bwCompute, .bwSend] ++ evs)

/-- `ScheduleGPipe.__call__`: the forward phase over all chunks, the
backward phase over all chunks if `bw_node` is present, the wait on
every deferred send handle, `merge_and_assign_chunked_grads`, and the
step if `step_node` is present. -/
def scheduleGPipeRun (cfg : StageConfig) (prog : StageProgram)
    (stepFn : GradDict → GradDict → GradDict) (s : RuntimeStates) :
    Except String (RuntimeStates × List PPEvent) :=
  match gpipeFwLoop prog cfg.numChunks s with
  | .error e => .error e
  | .ok (s₁, evFw) =>
      match (if cfg.hasBwNode then gpipeBwLoop cfg prog cfg.numChunks s₁ else .ok (s₁, [])) with
      | .error e => .error e
      | .ok (s₂, evBw) =>
          match mergeAndAssignChunkedGrads cfg s₂ with
          | .error e => .error e
          | .ok s₃ =>
              if cfg.hasStepNode then
                .ok (stepOp stepFn s₃, evFw ++ evBw ++ [.waitAllSends, .mergeGrads, .stepCall])
              else
                .ok (s₃, evFw ++ evBw ++ [.waitAllSends, .mergeGrads])

theorem forwardComputeOneChunk_ok (prog : StageProgram) (s : RuntimeStates)
    (h₁ : s.curFwChunkId < s.savedTensorsBwChunks.length)
    (h₂ : s.curFwChunkId < s.returnsChunks.length) :
    forwardComputeOneChunk prog s = .ok
      { s with
        savedTensorsBwChunks := s.savedTensorsBwChunks.set s.curFwChunkId
          (updateDict (s.savedTensorsBwChunks.get ⟨s.curFwChunkId, h₁⟩)
            (prog.fwSavedTensors s.curFwChunkId)),
        savedParamsStep := updateDict s.savedParamsStep (prog.fwSavedParams s.curFwChunkId),
        returnsChunks := s.returnsChunks.set s.curFwChunkId
          (updateDict (s.returnsChunks.get ⟨s.curFwChunkId, h₂⟩)
            (prog.fwReturns s.curFwChunkId)),
        curFwSendChunk := some (prog.fwOut s.curFwChunkId),
        curFwChunkId := s.curFwChunkId + 1 } := by
  rw [forwardComputeOneChunk, writeChunk, List.get?_eq_get h₁, exceptOkBind,
    writeChunk, List.get?_eq_get h₂, exceptOkBind]

theorem gpipeFwLoop_ok (prog : StageProgram) :
    ∀ (n : Nat) (s : RuntimeStates),
      s.curFwChunkId + n ≤ s.savedTensorsBwChunks.length →
      s.curFwChunkId + n ≤ s.returnsChunks.length →
      ∃ sf, gpipeFwLoop prog n s =
          .ok (sf, repeatTrace [.fwRecv true, .fwCompute, .fwSend] n) ∧
        sf.savedGradsStepChunks = s.savedGradsStepChunks ∧
        sf.outputGradsChunks = s.outputGradsChunks ∧
        sf.outputGradsReduced = s.outputGradsReduced ∧
        sf.stepGradsReduced = s.stepGradsReduced ∧
        sf.paramGrads = s.paramGrads := by
  intro n
  induction n with
  | zero => exact fun s _ _ => ⟨s, rfl, rfl, rfl, rfl, rfl, rfl⟩
  | succ k ih =>
      intro s h₁ h₂
      have hlt₁ : s.curFwChunkId < s.savedTensorsBwChunks.length := by omega
      have hlt₂ : s.curFwChunkId < s.returnsChunks.length := by omega
      obtain ⟨sf, hloop, e₁, e₂, e₃, e₄, e₅⟩ := ih
        { s with
          savedTensorsBwChunks := s.savedTensorsBwChunks.set s.curFwChunkId
            (updateDict (s.savedTensorsBwChunks.get ⟨s.curFwChunkId, hlt₁⟩)
              (prog.fwSavedTensors s.curFwChunkId)),
          savedParamsStep := updateDict s.savedParamsStep (prog.fwSavedParams s.curFwChunkId),
          returnsChunks := s.returnsChunks.set s.curFwChunkId
            (updateDict (s.returnsChunks.get ⟨s.curFwChunkId, hlt₂⟩)
              (prog.fwReturns s.curFwChunkId)),
          curFwSendChunk := some (prog.fwOut s.curFwChunkId),
          curFwChunkId := s.curFwChunkId + 1 }
        (by simp only [List.length_set]; omega) (by simp only [List.length_set]; omega)
      refine ⟨sf, ?_, e₁, e₂, e₃, e₄, e₅⟩
      simp only [gpipeFwLoop, forwardComputeOneChunk_ok prog s hlt₁ hlt₂, hloop, repeatTrace]

theorem treeReduceGrads_replicate_empty (m : Nat) :
    treeReduceGrads (List.replicate (m + 1) []) = .ok [] := by
  rw [List.replicate_succ, treeReduceGrads]
  induction m with
  | zero => rfl
  | succ j ih => rw [List.replicate_succ, List.foldlM_cons]; exact ih

/-- On a state whose per-chunk gradient buffers are still in their
reset shape (as after a forward-only run) and whose reduced output
accumulator is empty, `merge_and_assign_chunked_grads` completes
without raising, for either accumulation policy. -/
theorem mergeAndAssign_ok_of_empty (cfg : StageConfig) (s : RuntimeStates)
    (hsg : s.savedGradsStepChunks = List.replicate cfg.numChunks [])
    (hog : s.outputGradsChunks = List.replicate cfg.numChunks [])
    (hor : s.outputGradsReduced = [])
    (hn : 1 ≤ cfg.numChunks) :
    ∃ s₃, mergeAndAssignChunkedGrads cfg s = .ok s₃ ∧
      s₃.outputGradsReduced = [] ∧
      s₃.stepGradsReduced = (if cfg.accumulateGradsInplace then s.stepGradsReduced else []) := by
  obtain ⟨m, hm⟩ : ∃ m, cfg.numChunks = m + 1 := ⟨cfg.numChunks - 1, by omega⟩
  cases hacc : cfg.accumulateGradsInplace with
  | true =>
      cases hstep : cfg.hasStepNode with
      | true =>
          simp only [mergeAndAssignChunkedGrads, hacc, hstep, exceptOkBind, if_true]
          exact ⟨_, rfl, rfl, rfl⟩
      | false =>
          simp only [mergeAndAssignChunkedGrads, hacc, hstep, exceptOkBind, if_true,
            Bool.false_eq_true, if_false, hor, List.foldlM_nil, pure_bind]
          exact ⟨_, rfl, rfl, rfl⟩
  | false =>
      cases hstep : cfg.hasStepNode with
      | true =>
          simp only [mergeAndAssignChunkedGrads, hacc, hstep, hsg, hog, hm,
            Bool.false_eq_true, if_false, treeReduceGrads_replicate_empty, exceptOkBind,
            if_true]
          exact ⟨_, rfl, rfl, rfl⟩
      | false =>
          simp only [mergeAndAssignChunkedGrads, hacc, hstep, hsg, hog, hm,
            Bool.false_eq_true, if_false, treeReduceGrads_replicate_empty, exceptOkBind,
            List.foldlM_nil, pure_bind]
          exact ⟨_, rfl, rfl, rfl⟩

/-! ### Receive-buffer aliasing (`collect_kwargs`)

A `RecevPlaceholder` owns a pre-allocated buffer tensor that is
overwritten by every receive; `collect_kwargs` hands the compute
callable `ph.buffer.clone()`.  To state the aliasing property, tensors
live at explicit addresses in a small heap; `clone` allocates a fresh
address carrying the current value. -/

abbrev Addr := Nat

structure Heap where
  next : Addr
  mem : Addr → Int

/-- The tensor at `a` exists in `h`. -/
def Heap.valid (h : Heap) (a : Addr) : Prop := a < h.next

/-- In-place overwrite of the tensor at `a` (what a later receive into
the same placeholder buffer does). -/
def Heap.write (h : Heap) (a : Addr) (v : Int) : Heap :=
  { h with mem := fun a' => if a' = a then v else h.mem a' }

/-- `.clone()`: allocate a fresh tensor holding the same value. -/
def Heap.clone (h : Heap) (a : Addr) : Heap × Addr :=
  ({ next := h.next + 1,
     mem := fun a' => if a' = h.next then h.mem a else h.mem a' }, h.next)

/-- The placeholders of one `recv_info`, flattened across source ranks
in iteration order.  A `StageKwargPlaceholder` reads
`kwargs_chunks[chunk][name]` directly (no copy); a `RecevPlaceholder`
owns its buffer address. -/
inductive PlaceholderH where
  | kwargPh (name : String)
  | recvPh (name : String) (buf : Addr)
deriving DecidableEq

def phName : PlaceholderH → String
  | .kwargPh n => n
  | .recvPh n _ => n

/-- `collect_kwargs` over the flattened placeholder list:
`composite_kwargs[ph.input_name] = ph.buffer.clone()` for receive
placeholders, `composite_kwargs[ph.input_name] =
chunk_kwargs[ph.input_name]` for kwarg placeholders. -/
def collectKwargsAux (chunkKwargs : List (String × Addr)) :
    List PlaceholderH → Heap → List (String × Addr) →
      Except String (Heap × List (String × Addr))
  | [], h, acc => .ok (h, acc)
  | .kwargPh name :: rest, h, acc =>
      match lookupD chunkKwargs name with
      | some a => collectKwargsAux chunkKwargs rest h (dictSet acc name a)
      | none => .error "KeyError"
  | .recvPh name buf :: rest, h, acc =>
      collectKwargsAux chunkKwargs rest (h.clone buf).1 (dictSet acc name (h.clone buf).2)

def collectKwargs (chunkKwargs : List (String × Addr)) (phs : List PlaceholderH) (h : Heap) :
    Except String (Heap × List (String × Addr)) :=
  collectKwargsAux chunkKwargs phs h []

theorem collectKwargsAux_spec (ck : List (String × Addr)) :
    ∀ (phs : List PlaceholderH) (h : Heap) (acc : List (String × Addr))
      (hh : Heap) (kws : List (String × Addr)),
      collectKwargsAux ck phs h acc = .ok (hh, kws) →
      h.next ≤ hh.next ∧
      (∀ a, a < h.next → hh.mem a = h.mem a) ∧
      (∀ n, n ∉ phs.map phName → lookupD kws n = lookupD acc n) ∧
      ((phs.map phName).Nodup →
        ∀ name buf, PlaceholderH.recvPh name buf ∈ phs → buf < h.next →
          ∃ a, lookupD kws name = some a ∧ h.next ≤ a ∧ a < hh.next ∧
            hh.mem a = h.mem buf) := by
  intro phs
  induction phs with
  | nil =>
      intro h acc hh kws hok
      obtain ⟨rfl, rfl⟩ : hh = h ∧ kws = acc := by
        cases hok; exact ⟨rfl, rfl⟩
      exact ⟨Nat.le_refl _, fun _ _ => rfl, fun _ _ => rfl, fun _ name buf hm => absurd hm (by simp)⟩
  | cons ph rest ih =>
      intro h acc hh kws hok
      cases ph with
      | kwargPh n₀ =>
          rw [collectKwargsAux] at hok
          cases hck : lookupD ck n₀ with
          | none => rw [hck] at hok; cases hok
          | some a₀ =>
              rw [hck] at hok
              obtain ⟨g₁, g₂, g₃, g₄⟩ := ih h (dictSet acc n₀ a₀) hh kws hok
              refine ⟨g₁, g₂, ?_, ?_⟩
              · intro n hn
                rw [List.map_cons, List.mem_cons] at hn
                have hn₁ : n ≠ n₀ := fun he => hn (Or.inl he)
                have hn₂ : n ∉ rest.map phName := fun he => hn (Or.inr he)
                rw [g₃ n hn₂, lookupD_dictSet, if_neg (fun hc => hn₁ hc.symm)]
              · intro hnd name buf hm hbuf
                rw [List.map_cons, List.nodup_cons] at hnd
                rw [List.mem_cons] at hm
                cases hm with
                | inl he => cases he
                | inr hm => exact g₄ hnd.2 name buf hm hbuf
      | recvPh n₀ buf₀ =>
          rw [collectKwargsAux] at hok
          obtain ⟨g₁, g₂, g₃, g₄⟩ :=
            ih (h.clone buf₀).1 (dictSet acc n₀ (h.clone buf₀).2) hh kws hok
          have hnext : (h.clone buf₀).1.next = h.next + 1 := rfl
          rw [hnext] at g₁ g₂ g₄
          refine ⟨Nat.le_of_succ_le g₁, ?_, ?_, ?_⟩
          · intro a ha
            rw [g₂ a (Nat.lt_succ_of_lt ha)]
            show (if a = h.next then h.mem buf₀ else h.mem a) = h.mem a
            rw [if_neg (Nat.ne_of_lt ha)]
          · intro n hn
            rw [List.map_cons, List.mem_cons] at hn
            have hn₁ : n ≠ n₀ := fun he => hn (Or.inl he)
            have hn₂ : n ∉ rest.map phName := fun he => hn (Or.inr he)
            rw [g₃ n hn₂, lookupD_dictSet, if_neg (fun hc => hn₁ hc.symm)]
          · intro hnd name buf hm hbuf
            rw [List.map_cons, List.nodup_cons] at hnd
            rw [List.mem_cons] at hm
            cases hm with
            | inl he =>
                cases he
                refine ⟨h.next, ?_, Nat.le_refl _, g₁, ?_⟩
                · rw [g₃ _ (by simpa [phName] using hnd.1), lookupD_dictSet, if_pos rfl]
                  rfl
                · rw [g₂ h.next (Nat.lt_succ_self _)]
                  show (if h.next = h.next then h.mem buf₀ else h.mem h.next) = h.mem buf₀
                  rw [if_pos rfl]
            | inr hm =>
                obtain ⟨a, ha₁, ha₂, ha₃, ha₄⟩ := g₄ hnd.2 name buf hm (Nat.lt_succ_of_lt hbuf)
                refine ⟨a, ha₁, Nat.le_of_succ_le ha₂, ha₃, ?_⟩
                rw [ha₄]
                show (if buf = h.next then h.mem buf₀ else h.mem buf) = h.mem buf
                rw [if_neg (Nat.ne_of_lt hbuf)]

/-! ### Communication plan construction
(`_create_send_info` / `_create_recv_info`)

Candidates are the `(peer_rank, value_name)` pairs gathered from the
graph: destination stage and output name for sends, source global rank
and input name for receives, with rank `-1` marking inputs that are
local kwargs (placeholders).  The Python `list.sort(key=...)` is a
stable sort; since candidates comparing equal under the key are
identical pairs, `List.insertionSort` by the key relation has the same
result. -/

abbrev Cand := Int × String

/-- Forward-direction sort key: ascending `(peer_rank, value_name)`. -/
def fwdKey (a b : Cand) : Prop := a.1 < b.1 ∨ (a.1 = b.1 ∧ a.2 ≤ b.2)

/-- Backward-direction sort key `(-x[0], x[1])` compared
lexicographically. -/
def bwdKey (a b : Cand) : Prop := -a.1 < -b.1 ∨ (-a.1 = -b.1 ∧ a.2 ≤ b.2)

instance : DecidableRel fwdKey := fun a b => by unfold fwdKey; infer_instance

instance : DecidableRel bwdKey := fun a b => by unfold bwdKey; infer_instance

instance : IsTotal Cand fwdKey :=
  ⟨by
    intro a b
    rcases lt_trichotomy a.1 b.1 with h | h | h
    · exact Or.inl (Or.inl h)
    · rcases le_total a.2 b.2 with h₂ | h₂
      · exact Or.inl (Or.inr ⟨h, h₂⟩)
      · exact Or.inr (Or.inr ⟨h.symm, h₂⟩)
    · exact Or.inr (Or.inl h)⟩

instance : IsTrans Cand fwdKey :=
  ⟨by
    intro a b c hab hbc
    rcases hab with h₁ | ⟨h₁, h₂⟩ <;> rcases hbc with h₃ | ⟨h₃, h₄⟩
    · exact Or.inl (lt_trans h₁ h₃)
    · exact Or.inl (lt_of_lt_of_le h₁ (le_of_eq h₃))
    · exact Or.inl (lt_of_le_of_lt (le_of_eq h₁) h₃)
    · exact Or.inr ⟨h₁.trans h₃, le_trans h₂ h₄⟩⟩

instance : IsTotal Cand bwdKey :=
  ⟨by
    intro a b
    rcases lt_trichotomy (-a.1) (-b.1) with h | h | h
    · exact Or.inl (Or.inl h)
    · rcases le_total a.2 b.2 with h₂ | h₂
      · exact Or.inl (Or.inr ⟨h, h₂⟩)
      · exact Or.inr (Or.inr ⟨h.symm, h₂⟩)
    · exact Or.inr (Or.inl h)⟩

instance : IsTrans Cand bwdKey :=
  ⟨by
    intro a b c hab hbc
    rcases hab with h₁ | ⟨h₁, h₂⟩ <;> rcases hbc with h₃ | ⟨h₃, h₄⟩
    · exact Or.inl (lt_trans h₁ h₃)
    · exact Or.inl (lt_of_lt_of_le h₁ (le_of_eq h₃))
    · exact Or.inl (lt_of_le_of_lt (le_of_eq h₁) h₃)
    · exact Or.inr ⟨h₁.trans h₃, le_trans h₂ h₄⟩⟩

/-- `to_sort.sort(key=...)`: ascending on `(rank, name)` for the
forward direction, ascending on `(-rank, name)` for backward. -/
def pySortCands (isForward : Bool) (cands : List Cand) : List Cand :=
  if isForward then List.insertionSort fwdKey cands
  else List.insertionSort bwdKey cands

/-- `_create_send_info`: sort the `(dst_rank, out_str)` candidates,
then group into `send_info_by_stage[dst_rank].append(out_str)` in
sorted order — the per-destination list is the subsequence of the
sorted candidates with that destination, projected to names.  (The
resulting `defaultdict` is modelled as the per-key list function.) -/
def createSendInfo (isForward : Bool) (cands : List Cand) : Int → List String :=
  fun dst => ((pySortCands isForward cands).filter (fun x => x.1 == dst)).map Prod.snd

/-- One entry of `kwargs_recv_info`: a `StageKwargPlaceholder` (local
kwarg, grouped under rank 0) or a `RecevPlaceholder` with its source
rank (the pre-allocated buffer and example tensor are not relevant to
ordering and are omitted here). -/
inductive RecvEntry where
  | kwargEntry (name : String)
  | recvEntry (name : String) (src : Int)
deriving DecidableEq, Repr

/-- `_create_recv_info`: placeholders enter as rank `-1` candidates;
`assert is_forward` fires when a backward direction sees one.  After
sorting, rank `-1` entries become `StageKwargPlaceholder`s grouped
under key 0 and the rest become `RecevPlaceholder`s grouped under
their source rank. -/
def createRecvInfo (isForward : Bool) (cands : List Cand) :
    Except String (Int → List RecvEntry) :=
  if !isForward && cands.any (fun x => x.1 == -1) then
    .error "AssertionError: is_forward"
  else
    .ok (fun g =>
      ((pySortCands isForward cands).filter
          (fun x => (if x.1 = -1 then 0 else x.1) == g)).map
        (fun x => if x.1 = -1 then RecvEntry.kwargEntry x.2 else RecvEntry.recvEntry x.2 x.1))

/-- The names received from actual source rank `p`, in receive order:
the rank-`p` subsequence of the sorted receive candidates. -/
def recvNamesFrom (isForward : Bool) (cands : List Cand) (p : Int) : List String :=
  ((pySortCands isForward cands).filter (fun x => x.1 == p)).map Prod.snd

/-- Select, from a per-group placeholder list, the names of the
receive placeholders whose source is `p`. -/
def entryNameFromSrc (p : Int) : RecvEntry → Option String
  | .kwargEntry _ => none
  | .recvEntry n s => if s = p then some n else none

theorem pySortCands_sorted_fwd (l : List Cand) : (pySortCands true l).Sorted fwdKey := by
  rw [pySortCands, if_pos rfl]
  exact List.sorted_insertionSort fwdKey l

theorem pySortCands_sorted_bwd (l : List Cand) : (pySortCands false l).Sorted bwdKey := by
  rw [pySortCands, if_neg (by simp)]
  exact List.sorted_insertionSort bwdKey l

/-- The backward sort is descending on peer rank with ascending
alphabetical tie-break. -/
theorem pySortCands_sorted_bwd_desc (l : List Cand) :
    (pySortCands false l).Sorted (fun a b => b.1 < a.1 ∨ (a.1 = b.1 ∧ a.2 ≤ b.2)) := by
  refine (pySortCands_sorted_bwd l).imp ?_
  intro a b hab
  rcases hab with h | ⟨h, h₂⟩
  · exact Or.inl (by omega)
  · exact Or.inr ⟨by omega, h₂⟩

theorem perm_pySortCands (dir : Bool) (l : List Cand) : (pySortCands dir l).Perm l := by
  cases dir with
  | true => rw [pySortCands, if_pos rfl]; exact List.perm_insertionSort fwdKey l
  | false => rw [pySortCands, if_neg (by simp)]; exact List.perm_insertionSort bwdKey l

/-- Within a fixed peer, the per-peer name list extracted from the
sorted candidates is alphabetically ascending, in both directions. -/
theorem perPeerNames_sorted (dir : Bool) (l : List Cand) (d : Int) :
    (((pySortCands dir l).filter (fun x => x.1 == d)).map Prod.snd).Sorted (· ≤ ·) := by
  have key : ∀ (r : Cand → Cand → Prop), (pySortCands dir l).Sorted r →
      (∀ a b : Cand, a.1 = d → b.1 = d → r a b → a.2 ≤ b.2) →
      (((pySortCands dir l).filter (fun x => x.1 == d)).map Prod.snd).Sorted (· ≤ ·) := by
    intro r hs himp
    rw [List.Sorted, List.pairwise_map]
    refine List.Pairwise.imp_of_mem ?_ (hs.filter _)
    intro a b ha hb hab
    have hda : a.1 = d := by simpa using List.of_mem_filter ha
    have hdb : b.1 = d := by simpa using List.of_mem_filter hb
    exact himp a b hda hdb hab
  cases dir with
  | true =>
      refine key fwdKey (pySortCands_sorted_fwd l) ?_
      intro a b hda hdb hab
      rcases hab with h | ⟨_, h⟩
      · rw [hda, hdb] at h; exact absurd h (lt_irrefl d)
      · exact h
  | false =>
      refine key bwdKey (pySortCands_sorted_bwd l) ?_
      intro a b hda hdb hab
      rcases hab with h | ⟨_, h⟩
      · rw [hda, hdb] at h; exact absurd h (lt_irrefl (-d))
      · exact h

theorem perPeerNames_perm (dir : Bool) (l : List Cand) (d : Int) :
    (((pySortCands dir l).filter (fun x => x.1 == d)).map Prod.snd).Perm
      ((l.filter (fun x => x.1 == d)).map Prod.snd) :=
  ((perm_pySortCands dir l).filter _).map _

/-- Extracting the source-`p` receive names from the group that rank
`p` candidates land in recovers exactly the rank-`p` subsequence of
the sorted candidates (kwarg placeholders in group 0 contribute
nothing, and `p ≠ -1` so no candidate is misclassified). -/
theorem filterMap_entryName (p : Int) (hp : p ≠ -1) (l : List Cand) :
    ((l.filter (fun x => (if x.1 = -1 then 0 else x.1) == p)).map
        (fun x => if x.1 = -1 then RecvEntry.kwargEntry x.2
                  else RecvEntry.recvEntry x.2 x.1)).filterMap (entryNameFromSrc p) =
      (l.filter (fun x => x.1 == p)).map Prod.snd := by
  induction l with
  | nil => rfl
  | cons x rest ih =>
      by_cases h₁ : x.1 = -1
      · have hne : ¬(-1 : Int) = p := fun he => hp he.symm
        have hxp : (x.1 == p) = false := by simp [h₁, hne]
        by_cases h₂ : p = 0
        · subst h₂
          rw [List.filter_cons_of_pos (by simp [h₁]), List.map_cons,
            List.filter_cons_of_neg (by simp [hxp])]
          rw [if_pos h₁]
          rw [List.filterMap_cons]
          simpa [entryNameFromSrc] using ih
        · have hne₀ : ¬(0 : Int) = p := fun he => h₂ he.symm
          rw [List.filter_cons_of_neg (by simp [h₁, hne₀]),
            List.filter_cons_of_neg (by simp [hxp])]
          exact ih
      · by_cases h₂ : x.1 = p
        · rw [List.filter_cons_of_pos (by simp [h₁, h₂]; exact fun he => absurd he hp),
            List.filter_cons_of_pos (by simp [h₂]), List.map_cons, List.map_cons,
            if_neg h₁, List.filterMap_cons]
          simpa [entryNameFromSrc, h₂] using ih
        · rw [List.filter_cons_of_neg (by simp [h₁, h₂]),
            List.filter_cons_of_neg (by simp [h₂])]
          exact ih

/-! ### Claim theorems -/

/-- **C4.** The claim states `OneToOneMap.add(k, v)` must fail whenever
`v` already participates as a value, and in particular
`add("a","x")` followed by `add("b","x")` must fail with a value
collision.  The code tests `value in self._map` instead of
`value in self._inv` (while its own error message prints
`value in self._inv`), so the second `add` succeeds silently, mapping
both `"a"` and `"b"` to `"x"` and corrupting `_inv`; the intended
check (`addSpec`) raises as the claim requires. -/
theorem c4_add_value_collision_not_raised :
    (OneToOneMap.empty.add "a" "x").bind (fun m => m.add "b" "x") =
      .ok { map := [("a", "x"), ("b", "x")], inv := [("x", "b")] } ∧
    (OneToOneMap.empty.addSpec "a" "x").bind (fun m => m.addSpec "b" "x") =
      .error "RuntimeError: not one to one mapping" := by
  exact ⟨rfl, rfl⟩

/-- **C5 (counterexample).** The claim states the 1F1B cool-down phase
performs `num_chunks - num_warmup` backward iterations.  At
`num_stages = 4`, `stage_idx = 3`, `num_chunks = 8` the warm-up count
is `min(4-3, 8) = 1`, the code's cool-down loop
`range(num_chunks - num_warmup, num_chunks)` runs exactly once, but
`num_chunks - num_warmup = 7`. -/
theorem c5_cooldown_count_counterexample :
    numWarmup 4 3 8 = 1 ∧
    (dappleCooldownTrace (numWarmup 4 3 8) 8).count PPEvent.bwCompute = 1 ∧
    ¬((dappleCooldownTrace (numWarmup 4 3 8) 8).count PPEvent.bwCompute
        = 8 - numWarmup 4 3 8) := by
  decide

/-- **C5 (amended).** With `num_warmup = min(num_stages - stage_idx,
num_chunks)`, the cool-down phase of the 1F1B/DAPPLE schedule performs
plain backward receive/compute/send for exactly the last `num_warmup`
chunks (the steady state having handled `num_chunks - num_warmup`),
so the whole schedule performs exactly `num_chunks` backward computes. -/
theorem c5_cooldown_runs_num_warmup_chunks (nS sI c : Nat) (hs : Bool) :
    numWarmup nS sI c = min (nS - sI) c ∧
    (dappleCooldownTrace (numWarmup nS sI c) c).count PPEvent.bwCompute
      = numWarmup nS sI c ∧
    (scheduleDAPPLETrace nS sI c hs).count PPEvent.bwCompute = c := by
  have hwc : numWarmup nS sI c ≤ c := min_le_right _ _
  refine ⟨rfl, ?_, ?_⟩
  · rw [dappleCooldownTrace, count_repeatTrace]
    simp
    omega
  · rw [scheduleDAPPLETrace, List.count_append, List.count_append, List.count_append,
      List.count_append, dappleWarmupTrace, dappleSteadyTrace, dappleCooldownTrace,
      count_repeatTrace, count_repeatTrace, count_repeatTrace]
    have htail : ∀ b : Bool,
        (if b then [PPEvent.stepCall] else []).count PPEvent.bwCompute = 0 := by
      intro b; cases b <;> rfl
    rw [htail]
    simp

/-- **C5 (witness).** Stage 3 of 4 with 8 chunks: warm-up is 1, the
cool-down performs exactly 1 backward compute, and 8 in total. -/
theorem c5_cooldown_runs_num_warmup_chunks_witness :
    numWarmup 4 3 8 = min (4 - 3) 8 ∧
    (dappleCooldownTrace (numWarmup 4 3 8) 8).count PPEvent.bwCompute = numWarmup 4 3 8 ∧
    (scheduleDAPPLETrace 4 3 8 true).count PPEvent.bwCompute = 8 :=
  c5_cooldown_runs_num_warmup_chunks 4 3 8 true

/-- **C3.** In the 1F1B/DAPPLE schedule every steady-state iteration
(the `i`-th of the `num_chunks - num_warmup` iterations, located right
after the `3 * num_warmup` warm-up events) performs exactly, in order:
blocking backward receive, non-blocking forward receive, backward
compute, backward send, wait on the deferred forward receive, forward
compute, forward send. -/
theorem c3_steady_state_order (nS sI c : Nat) (hs : Bool) (i : Nat)
    (hi : i < c - numWarmup nS sI c) :
    ((scheduleDAPPLETrace nS sI c hs).drop (3 * numWarmup nS sI c + 7 * i)).take 7 =
      [.bwRecv true, .fwRecv false, .bwCompute, .bwSend, .fwWait, .fwCompute, .fwSend] := by
  have hlen : (dappleWarmupTrace (numWarmup nS sI c)).length = 3 * numWarmup nS sI c := by
    rw [dappleWarmupTrace, length_repeatTrace]
    simp [Nat.mul_comm]
  rw [scheduleDAPPLETrace]
  rw [List.append_assoc, List.append_assoc, List.append_assoc]
  rw [← hlen, List.drop_append]
  rw [dappleSteadyTrace]
  exact repeatTrace_block_at
    [.bwRecv true, .fwRecv false, .bwCompute, .bwSend, .fwWait, .fwCompute, .fwSend]
    _ i (c - numWarmup nS sI c) hi

/-- **C3 (witness).** Stage 0 of 4 with 8 chunks: the third
steady-state iteration (i = 2) shows exactly the claimed order. -/
theorem c3_steady_state_order_witness :
    ((scheduleDAPPLETrace 4 0 8 true).drop (3 * numWarmup 4 0 8 + 7 * 2)).take 7 =
      [.bwRecv true, .fwRecv false, .bwCompute, .bwSend, .fwWait, .fwCompute, .fwSend] :=
  c3_steady_state_order 4 0 8 true 2 (by decide)

/-- Specification-side description of the reassembly policy as the
claim states it: the FIRST non-absent contribution in stage order. -/
def firstNonAbsent (gathered : List (List (String × Option Int))) (k : String) : Option Int :=
  ((gathered.flatMap id).filter (fun kv => kv.1 = k)).findSome? Prod.snd

/-- **C8 (counterexample).** With two stages both contributing a value
for `"r"` (stage 0 gives 1, stage 1 gives 2), the loop
`for returns in returns_all_gather: ... if v is not None:
returns_dict[k] = v` keeps the LAST contribution (2), not the first
(1) as the claim states. -/
theorem c8_first_non_absent_counterexample :
    lookupD (assembleReturns [[("r", some 1)], [("r", some 2)]]) "r" = some 2 ∧
    firstNonAbsent [[("r", some 1)], [("r", some 2)]] "r" = some 1 ∧
    ¬(lookupD (assembleReturns [[("r", some 1)], [("r", some 2)]]) "r" =
        firstNonAbsent [[("r", some 1)], [("r", some 2)]] "r") := by
  exact ⟨rfl, rfl, by decide⟩

/-- **C8 (amended).** `merge_chunked_returns` assembles the final
result by taking, for each declared return-value name, the LAST
non-absent contribution in stage order among the all-gathered
per-stage partial results (when each value is produced by exactly one
stage this coincides with the unique contribution). -/
theorem c8_assemble_last_non_absent (gathered : List (List (String × Option Int))) :
    ∀ k, lookupD (assembleReturns gathered) k = lastNonAbsent gathered k :=
  lookupD_assembleReturns gathered

/-- **C6 (counterexample).** On a chunk sequence whose per-chunk
gradient dicts do not share a key set (chunk 0 empty, chunk 1 holding
`a ↦ 1`), the end-of-step tree reduction (whose comprehension ranges
over the keys of its left argument) produces the empty dict while the
in-place accumulation produces `a ↦ 1`: the two reduction paths
disagree, refuting the claim's unrestricted quantification over chunk
dictionaries. -/
theorem c6_mismatched_keys_counterexample :
    treeReduceGrads [[], [("a", 1)]] = .ok [] ∧
    inplaceReduceGrads [[], [("a", 1)]] = [("a", 1)] ∧
    ¬(lookupD ([] : GradDict) "a" = lookupD [("a", (1 : Int))] "a") := by
  refine ⟨rfl, rfl, by decide⟩

/-- **C6 (amended).** For every chunk count and every nonempty
sequence of per-chunk gradient dictionaries that share one
duplicate-free key set (as the per-chunk outputs of one backward
callable do), the end-of-step tree reduction of
`merge_and_assign_chunked_grads` succeeds and agrees, key by key, with
the incremental in-place accumulation performed by
`backward_compute_one_chunk` — exact agreement, since the summation
order only differs in grouping. -/
theorem c6_inplace_eq_tree_reduction (chunks : List GradDict) (K : List String)
    (hne : chunks ≠ [])
    (hnd : K.Nodup)
    (hK : ∀ c ∈ chunks, c.map Prod.fst = K) :
    ∃ d, treeReduceGrads chunks = .ok d ∧
      ∀ k, lookupD d k = lookupD (inplaceReduceGrads chunks) k := by
  match chunks, hne with
  | c₀ :: cs, _ =>
      have h₀ : c₀.map Prod.fst = K := hK c₀ (List.mem_cons_self _ _)
      have hlook : ∀ k, lookupD c₀ k = lookupD (accumInto [] c₀) k := by
        intro k
        rw [lookupD_accumInto c₀ (h₀ ▸ hnd) [] k]
        cases lookupD c₀ k <;> simp [lookupD]
      obtain ⟨d, hd, hdl⟩ := tree_inplace_aux K hnd cs
        (fun c hm => hK c (List.mem_cons_of_mem _ hm)) c₀ (accumInto [] c₀) h₀ hlook
      exact ⟨d, hd, hdl⟩

/-- **C6 (witness).** Two chunks over the key set `{g, h}`. -/
theorem c6_inplace_eq_tree_reduction_witness :
    ∃ d, treeReduceGrads [[("g", 1), ("h", 2)], [("g", 3), ("h", 4)]] = .ok d ∧
      ∀ k, lookupD d k =
        lookupD (inplaceReduceGrads [[("g", 1), ("h", 2)], [("g", 3), ("h", 4)]]) k :=
  c6_inplace_eq_tree_reduction [[("g", 1), ("h", 2)], [("g", 3), ("h", 4)]] ["g", "h"]
    (by decide) (by decide) (by decide)

theorem checkSingle_ok (l : List GradDict) (h : ∀ c ∈ l, c = []) :
    checkSingle l = .ok () := by
  rw [checkSingle, if_pos]
  rw [List.all_eq_true]
  intro c hc
  rw [h c hc]
  rfl

theorem checkSingle_error (l : List GradDict) (h : ¬ ∀ c ∈ l, c = []) :
    checkSingle l = .error "AssertionError: len(chunk) == 0" := by
  rw [checkSingle, if_neg]
  intro hall
  exact h (fun c hc => List.isEmpty_iff.mp (List.all_eq_true.mp hall c hc))

/-- **C2.** Invoking the stage as a callable first runs
`reset_and_check_runtime_states`: if any per-chunk buffer other than
kwargs (returns, saved backward tensors, per-chunk step gradients,
per-chunk output gradients) is non-empty, the call raises an assertion
error; otherwise (granted, in in-place accumulation mode, the reduced
accumulators the same reset also asserts empty) the call proceeds to
the schedule on a state whose forward and backward chunk cursors are
reset to 0 and whose kwargs chunks are fully overwritten by the new
step's split inputs. -/
theorem c2_call_resets_and_checks (cfg : StageConfig) (s : RuntimeStates)
    (splitChunks : List GradDict)
    (sched : RuntimeStates → Except String (RuntimeStates × List PPEvent)) :
    (¬((∀ c ∈ s.returnsChunks, c = []) ∧ (∀ c ∈ s.savedTensorsBwChunks, c = []) ∧
        (∀ c ∈ s.savedGradsStepChunks, c = []) ∧ (∀ c ∈ s.outputGradsChunks, c = [])) →
      ∃ e, pipelineStageCall cfg splitChunks sched s = .error e) ∧
    ((∀ c ∈ s.returnsChunks, c = []) → (∀ c ∈ s.savedTensorsBwChunks, c = []) →
     (∀ c ∈ s.savedGradsStepChunks, c = []) → (∀ c ∈ s.outputGradsChunks, c = []) →
     (cfg.accumulateGradsInplace = true →
        s.outputGradsReduced = [] ∧ s.stepGradsReduced = []) →
      pipelineStageCall cfg splitChunks sched s =
        sched { s with curFwSendChunk := none, curBwSendChunk := none,
                       curFwChunkId := 0, curBwChunkId := 0,
                       kwargsChunks := splitChunks }) := by
  constructor
  · intro hall
    by_cases h₁ : ∀ c ∈ s.returnsChunks, c = []
    · by_cases h₂ : ∀ c ∈ s.savedTensorsBwChunks, c = []
      · by_cases h₃ : ∀ c ∈ s.savedGradsStepChunks, c = []
        · by_cases h₄ : ∀ c ∈ s.outputGradsChunks, c = []
          · exact absurd ⟨h₁, h₂, h₃, h₄⟩ hall
          · refine ⟨"AssertionError: len(chunk) == 0", ?_⟩
            simp only [pipelineStageCall, resetAndCheckRuntimeStates,
              checkSingle_ok _ h₁, checkSingle_ok _ h₂, checkSingle_ok _ h₃,
              checkSingle_error _ h₄, exceptOkBind, exceptErrorBind]
        · refine ⟨"AssertionError: len(chunk) == 0", ?_⟩
          simp only [pipelineStageCall, resetAndCheckRuntimeStates,
            checkSingle_ok _ h₁, checkSingle_ok _ h₂, checkSingle_error _ h₃,
            exceptOkBind, exceptErrorBind]
      · refine ⟨"AssertionError: len(chunk) == 0", ?_⟩
        simp only [pipelineStageCall, resetAndCheckRuntimeStates,
          checkSingle_ok _ h₁, checkSingle_error _ h₂, exceptOkBind, exceptErrorBind]
    · refine ⟨"AssertionError: len(chunk) == 0", ?_⟩
      simp only [pipelineStageCall, resetAndCheckRuntimeStates,
        checkSingle_error _ h₁, exceptErrorBind]
  · intro h₁ h₂ h₃ h₄ hred
    cases hacc : cfg.accumulateGradsInplace with
    | true =>
        obtain ⟨ho, hs'⟩ := hred hacc
        simp only [pipelineStageCall, resetAndCheckRuntimeStates, hacc,
          checkSingle_ok _ h₁, checkSingle_ok _ h₂, checkSingle_ok _ h₃,
          checkSingle_ok _ h₄, exceptOkBind, if_true, ho, hs', List.isEmpty_nil,
          pure_bind]
    | false =>
        simp only [pipelineStageCall, resetAndCheckRuntimeStates, hacc,
          checkSingle_ok _ h₁, checkSingle_ok _ h₂, checkSingle_ok _ h₃,
          checkSingle_ok _ h₄, exceptOkBind, Bool.false_eq_true, if_false,
          pure_bind]

def c2cfg : StageConfig :=
  { numChunks := 2, hasBwNode := true, hasStepNode := true,
    accumulateGradsInplace := false,
    outputGradsMapInv := fun _ => none, inputParamsMap := fun _ => none }

def c2sched : RuntimeStates → Except String (RuntimeStates × List PPEvent) :=
  fun st => .ok (st, [])

/-- **C2 (witness).** A freshly initialised two-chunk stage proceeds
to its schedule with cursors 0 and kwargs overwritten. -/
theorem c2_call_resets_and_checks_witness :
    pipelineStageCall c2cfg [[("k", 5)], [("k", 6)]] c2sched (initRuntimeStates c2cfg) =
      c2sched { initRuntimeStates c2cfg with
                curFwSendChunk := none, curBwSendChunk := none,
                curFwChunkId := 0, curBwChunkId := 0,
                kwargsChunks := [[("k", 5)], [("k", 6)]] } :=
  (c2_call_resets_and_checks c2cfg (initRuntimeStates c2cfg)
      [[("k", 5)], [("k", 6)]] c2sched).2
    (by decide) (by decide) (by decide) (by decide) (by decide)

def c9cfg : StageConfig :=
  { numChunks := 1, hasBwNode := true, hasStepNode := true,
    accumulateGradsInplace := true,
    outputGradsMapInv := fun _ => none, inputParamsMap := fun _ => none }

def c9prog : StageProgram :=
  { fwSavedTensors := fun _ => [], fwSavedParams := fun _ => [], fwReturns := fun _ => [],
    fwOut := fun _ => [], bwStepGrads := fun _ => [("g", 1)],
    bwOutputGrads := fun _ => [("o", 2)], bwOut := fun _ => [] }

/-- **C9.** The claim (with the spec) states that at the end of every
complete step both reduced accumulators are cleared.
`merge_and_assign_chunked_grads` clears only `output_grads_reduced`
(line `self.output_grads_reduced.clear()`); nothing in the runtime
ever clears `step_grads_reduced`.  Running one in-place-accumulation
step that produces the step gradient `g ↦ 1` leaves
`step_grads_reduced = {g: 1}` after the merge and the optimizer step,
so the next step's `reset_and_check_runtime_states` fails its own
`assert len(self.step_grads_reduced) == 0` — the code contradicts its
own assertion, while the claim expects the accumulator cleared. -/
theorem c9_step_grads_reduced_not_cleared :
    (backwardComputeOneChunk c9cfg c9prog (initRuntimeStates c9cfg) >>= fun s₁ =>
      mergeAndAssignChunkedGrads c9cfg s₁ >>= fun s₂ =>
      Except.ok ((stepOp (fun p _ => p) s₂).outputGradsReduced,
        (stepOp (fun p _ => p) s₂).stepGradsReduced,
        resetAndCheckRuntimeStates c9cfg (stepOp (fun p _ => p) s₂))) =
    Except.ok ([], [("g", 1)],
      Except.error "AssertionError: len(step_grads_reduced) == 0") := by
  rfl

/-- Every event of a GPipe trace without a backward node is one of the
forward-phase events, the final wait, the merge, or (with a step node)
the step. -/
theorem gpipeTrace_no_bw_classify (c : Nat) (hs : Bool) (e : PPEvent)
    (he : e ∈ scheduleGPipeTrace c false hs) :
    e = .fwRecv true ∨ e = .fwCompute ∨ e = .fwSend ∨
      e = .waitAllSends ∨ e = .mergeGrads ∨ (hs = true ∧ e = .stepCall) := by
  rw [scheduleGPipeTrace] at he
  simp only [Bool.false_eq_true, if_false, List.append_nil, List.mem_append] at he
  rcases he with ((hrep | htl) | hstep)
  · have := mem_repeatTrace hrep
    simp only [List.mem_cons, List.not_mem_nil, or_false] at this
    tauto
  · simp only [List.mem_cons, List.not_mem_nil, or_false] at htl
    tauto
  · cases hs with
    | true =>
        simp only [if_true, List.mem_cons, List.not_mem_nil, or_false] at hstep
        exact Or.inr (Or.inr (Or.inr (Or.inr (Or.inr ⟨rfl, hstep⟩))))
    | false => simp at hstep

/-- **C10.** For a stage with no backward node, a GPipe schedule
invocation from a freshly initialised state completes without
raising: its event sequence is exactly `scheduleGPipeTrace` with the
backward phase absent — `num_chunks` forward receive/compute/send
iterations, no backward primitive at all, then the wait on all
deferred send handles and `merge_and_assign_chunked_grads`, and the
step only when a step node exists. -/
theorem c10_gpipe_no_backward_safe (cfg : StageConfig) (prog : StageProgram)
    (stepFn : GradDict → GradDict → GradDict)
    (hbw : cfg.hasBwNode = false) (hn : 1 ≤ cfg.numChunks) :
    ∃ sOut, scheduleGPipeRun cfg prog stepFn (initRuntimeStates cfg) =
        .ok (sOut, scheduleGPipeTrace cfg.numChunks false cfg.hasStepNode) ∧
      (scheduleGPipeTrace cfg.numChunks false cfg.hasStepNode).count PPEvent.fwCompute
        = cfg.numChunks ∧
      (∀ e ∈ scheduleGPipeTrace cfg.numChunks false cfg.hasStepNode,
        e ≠ PPEvent.bwCompute ∧ e ≠ PPEvent.bwSend ∧ ∀ w, e ≠ PPEvent.bwRecv w) ∧
      PPEvent.waitAllSends ∈ scheduleGPipeTrace cfg.numChunks false cfg.hasStepNode ∧
      PPEvent.mergeGrads ∈ scheduleGPipeTrace cfg.numChunks false cfg.hasStepNode ∧
      (cfg.hasStepNode = false →
        PPEvent.stepCall ∉ scheduleGPipeTrace cfg.numChunks false cfg.hasStepNode) := by
  obtain ⟨sf, hloop, e₁, e₂, e₃, e₄, e₅⟩ :=
    gpipeFwLoop_ok prog cfg.numChunks (initRuntimeStates cfg)
      (by simp [initRuntimeStates]) (by simp [initRuntimeStates])
  obtain ⟨s₃, hmerge, hm₁, hm₂⟩ := mergeAndAssign_ok_of_empty cfg sf
    (by rw [e₁]; rfl) (by rw [e₂]; rfl) (by rw [e₃]; rfl) hn
  have hcount : (scheduleGPipeTrace cfg.numChunks false cfg.hasStepNode).count
      PPEvent.fwCompute = cfg.numChunks := by
    rw [scheduleGPipeTrace, List.count_append, List.count_append, List.count_append,
      count_repeatTrace]
    have h₁ : (if false = true then
        repeatTrace [PPEvent.bwRecv true, PPEvent.bwCompute, PPEvent.bwSend] cfg.numChunks
      else []).count PPEvent.fwCompute = 0 := rfl
    have h₂ : ∀ b : Bool,
        (if b = true then [PPEvent.stepCall] else []).count PPEvent.fwCompute = 0 := by
      intro b; cases b <;> rfl
    rw [h₁, h₂]
    simp
  have hnobw : ∀ e ∈ scheduleGPipeTrace cfg.numChunks false cfg.hasStepNode,
      e ≠ PPEvent.bwCompute ∧ e ≠ PPEvent.bwSend ∧ ∀ w, e ≠ PPEvent.bwRecv w := by
    intro e he
    rcases gpipeTrace_no_bw_classify cfg.numChunks cfg.hasStepNode e he with
      h | h | h | h | h | ⟨_, h⟩ <;> subst h <;>
      exact ⟨by simp, by simp, fun w => by simp⟩
  have hwait : PPEvent.waitAllSends ∈ scheduleGPipeTrace cfg.numChunks false cfg.hasStepNode := by
    rw [scheduleGPipeTrace]
    simp
  have hmg : PPEvent.mergeGrads ∈ scheduleGPipeTrace cfg.numChunks false cfg.hasStepNode := by
    rw [scheduleGPipeTrace]
    simp
  have hnostep : cfg.hasStepNode = false →
      PPEvent.stepCall ∉ scheduleGPipeTrace cfg.numChunks false cfg.hasStepNode := by
    intro hsf he
    rcases gpipeTrace_no_bw_classify cfg.numChunks cfg.hasStepNode _ he with
      h | h | h | h | h | ⟨ht, _⟩
    · cases h
    · cases h
    · cases h
    · cases h
    · cases h
    · rw [hsf] at ht; cases ht
  cases hstep : cfg.hasStepNode with
  | true =>
      refine ⟨stepOp stepFn s₃, ?_, hstep ▸ hcount, hstep ▸ hnobw, hstep ▸ hwait,
        hstep ▸ hmg, hstep ▸ hnostep⟩
      simp only [scheduleGPipeRun, hloop, hbw, Bool.false_eq_true, if_false, hmerge,
        hstep, if_true, scheduleGPipeTrace, List.append_nil]
      rw [List.append_assoc]
      rfl
  | false =>
      refine ⟨s₃, ?_, hstep ▸ hcount, hstep ▸ hnobw, hstep ▸ hwait,
        hstep ▸ hmg, hstep ▸ hnostep⟩
      simp only [scheduleGPipeRun, hloop, hbw, Bool.false_eq_true, if_false, hmerge,
        hstep, scheduleGPipeTrace, List.append_nil]

def c10cfg : StageConfig :=
  { numChunks := 2, hasBwNode := false, hasStepNode := false,
    accumulateGradsInplace := false,
    outputGradsMapInv := fun _ => none, inputParamsMap := fun _ => none }

def c10prog : StageProgram :=
  { fwSavedTensors := fun _ => [("t", 1)], fwSavedParams := fun _ => [],
    fwReturns := fun _ => [("r", 2)], fwOut := fun _ => [("r", 2)],
    bwStepGrads := fun _ => [], bwOutputGrads := fun _ => [], bwOut := fun _ => [] }

/-- **C10 (witness).** A two-chunk stage without backward or step
node. -/
theorem c10_gpipe_no_backward_safe_witness :
    ∃ sOut, scheduleGPipeRun c10cfg c10prog (fun p _ => p) (initRuntimeStates c10cfg) =
        .ok (sOut, scheduleGPipeTrace c10cfg.numChunks false c10cfg.hasStepNode) ∧
      (scheduleGPipeTrace c10cfg.numChunks false c10cfg.hasStepNode).count PPEvent.fwCompute
        = c10cfg.numChunks ∧
      (∀ e ∈ scheduleGPipeTrace c10cfg.numChunks false c10cfg.hasStepNode,
        e ≠ PPEvent.bwCompute ∧ e ≠ PPEvent.bwSend ∧ ∀ w, e ≠ PPEvent.bwRecv w) ∧
      PPEvent.waitAllSends ∈ scheduleGPipeTrace c10cfg.numChunks false c10cfg.hasStepNode ∧
      PPEvent.mergeGrads ∈ scheduleGPipeTrace c10cfg.numChunks false c10cfg.hasStepNode ∧
      (c10cfg.hasStepNode = false →
        PPEvent.stepCall ∉ scheduleGPipeTrace c10cfg.numChunks false c10cfg.hasStepNode) :=
  c10_gpipe_no_backward_safe c10cfg c10prog (fun p _ => p) rfl (by decide)

/-- **C7.** For every `RecevPlaceholder` of a receive plan (with
pairwise-distinct input names, as placeholder names are),
`collect_kwargs` stores into the composite kwargs an address freshly
allocated by `.clone()` — not present in the original heap — holding
the buffer's value at collection time, and any later in-place
overwrite of any buffer that existed before the collection (in
particular the placeholder's own reusable receive buffer) leaves the
collected value unchanged. -/
theorem c7_collect_kwargs_clone_independent
    (ck : List (String × Addr)) (phs : List PlaceholderH) (h hh : Heap)
    (kws : List (String × Addr)) (name : String) (buf : Addr)
    (hok : collectKwargs ck phs h = .ok (hh, kws))
    (hnd : (phs.map phName).Nodup)
    (hmem : PlaceholderH.recvPh name buf ∈ phs)
    (hbuf : h.valid buf) :
    ∃ a, lookupD kws name = some a ∧ ¬h.valid a ∧ hh.valid a ∧
      hh.mem a = h.mem buf ∧
      ∀ (b : Addr) (v : Int), h.valid b → ((hh.write b v)).mem a = h.mem buf := by
  obtain ⟨g₁, g₂, g₃, g₄⟩ := collectKwargsAux_spec ck phs h [] hh kws hok
  obtain ⟨a, ha₁, ha₂, ha₃, ha₄⟩ := g₄ hnd name buf hmem hbuf
  refine ⟨a, ha₁, fun hv => absurd hv (Nat.not_lt.mpr ha₂), ha₃, ha₄, ?_⟩
  intro b v hb
  show (if a = b then v else hh.mem a) = h.mem buf
  rw [if_neg (Nat.ne_of_gt (lt_of_lt_of_le hb ha₂)), ha₄]

def c7heap : Heap := { next := 1, mem := fun _ => 7 }

/-- **C7 (witness).** One receive placeholder `x` with buffer address
0 in a one-cell heap holding 7. -/
theorem c7_collect_kwargs_clone_independent_witness :
    ∃ a, lookupD [("x", 1)] "x" = some a ∧ ¬c7heap.valid a ∧ (c7heap.clone 0).1.valid a ∧
      (c7heap.clone 0).1.mem a = c7heap.mem 0 ∧
      ∀ (b : Addr) (v : Int), c7heap.valid b →
        (((c7heap.clone 0).1.write b v)).mem a = c7heap.mem 0 :=
  c7_collect_kwargs_clone_independent [] [.recvPh "x" 0] c7heap (c7heap.clone 0).1
    [("x", 1)] "x" 0 rfl (by decide) (by decide) Nat.one_pos

/-- **C1.** The Communication Plan Builder sorts candidate
`(peer_rank, value_name)` pairs ascending on both components for the
forward direction and by descending peer rank with ascending
alphabetical tie-break for the backward direction, for both
`send_info` and `recv_info`; consequently each per-peer list is
alphabetically sorted, and for any pair of communicating stages —
whenever the names one side sends to a peer are (as a multiset) the
names the other side receives from its peer — the per-peer value lists
are identical on the sending and the receiving side, so the paired
sends and receives are issued in matching relative order. -/
theorem c1_comm_plan_order (dir : Bool) (A B : List Cand) (q p : Int)
    (f : Int → List RecvEntry)
    (hok : createRecvInfo dir B = .ok f)
    (hp : p ≠ -1)
    (hperm : ((A.filter (fun x => x.1 == q)).map Prod.snd).Perm
             ((B.filter (fun x => x.1 == p)).map Prod.snd)) :
    ((pySortCands true A).Sorted fwdKey ∧
      (pySortCands false A).Sorted (fun a b => b.1 < a.1 ∨ (a.1 = b.1 ∧ a.2 ≤ b.2))) ∧
    (createSendInfo dir A q).Sorted (· ≤ ·) ∧
    createSendInfo dir A q = (f p).filterMap (entryNameFromSrc p) := by
  have hf : f = fun g =>
      ((pySortCands dir B).filter (fun x => (if x.1 = -1 then 0 else x.1) == g)).map
        (fun x => if x.1 = -1 then RecvEntry.kwargEntry x.2
                  else RecvEntry.recvEntry x.2 x.1) := by
    rw [createRecvInfo] at hok
    by_cases hcond : (!dir && B.any (fun x => x.1 == -1)) = true
    · rw [if_pos hcond] at hok; cases hok
    · rw [if_neg hcond] at hok
      exact (Except.ok.inj hok).symm
  have hrecv : (f p).filterMap (entryNameFromSrc p) = recvNamesFrom dir B p := by
    rw [hf]
    exact filterMap_entryName p hp (pySortCands dir B)
  refine ⟨⟨pySortCands_sorted_fwd A, pySortCands_sorted_bwd_desc A⟩,
    perPeerNames_sorted dir A q, ?_⟩
  rw [hrecv]
  refine List.eq_of_perm_of_sorted ?_ (perPeerNames_sorted dir A q)
    (perPeerNames_sorted dir B p)
  exact ((perPeerNames_perm dir A q).trans hperm).trans (perPeerNames_perm dir B p).symm

def c1A : List Cand := [(3, "t1"), (3, "t0")]

def c1B : List Cand := [(0, "t0"), (0, "t1")]

def c1f : Int → List RecvEntry :=
  match createRecvInfo true c1B with
  | .ok f => f
  | .error _ => fun _ => []

/-- **C1 (witness).** A sender with candidates `t1, t0` for stage 3
and a receiver with candidates `t0, t1` from rank 0 agree on the
per-peer order. -/
theorem c1_comm_plan_order_witness :
    ((pySortCands true c1A).Sorted fwdKey ∧
      (pySortCands false c1A).Sorted (fun a b => b.1 < a.1 ∨ (a.1 = b.1 ∧ a.2 ≤ b.2))) ∧
    (createSendInfo true c1A 3).Sorted (· ≤ ·) ∧
    createSendInfo true c1A 3 = (c1f 0).filterMap (entryNameFromSrc 0) :=
  c1_comm_plan_order true c1A c1B 3 0 c1f rfl (by decide) (by decide)
